import Mathlib

/-!
Shallow embedding of the invoicer repository's invoice layout and
monetary-formatting engine (src/invoice.rs, src/accounting.rs,
src/address.rs, src/pdf.rs, src/time.rs), together with proofs of the
spec's claims about it.

Machine numerics are modelled exactly: `rust_decimal::Decimal` as a
mantissa/scale pair, and the one `f64` computation of the source
(`Time::hour_multiplicator`, consumed by `Decimal::from_f64`) as correctly
rounded binary64 arithmetic over `ℚ`.  All executable definitions build
rationals with `mkRat` and destruct them through `Rat.num`/`Rat.den`, so
that concrete runs reduce inside the kernel.
-/

namespace Invoicer

/-! ### Small executable helpers -/

/-- Fuelled floor of log base 2 (`nlog2fuel f n = ⌊log₂ n⌋` whenever `f ≥ n`). -/
def nlog2fuel : Nat → Nat → Nat
  | 0, _ => 0
  | f + 1, n => if n ≤ 1 then 0 else nlog2fuel f (n / 2) + 1

/-- Floor of log base 2 of a natural number (`0` for `n ≤ 1`). -/
def nlog2 (n : Nat) : Nat := nlog2fuel n n

/-- Ceiling of log base 2: least `k` with `n ≤ 2 ^ k` (0 for `n ≤ 1`). -/
def clog2n (n : Nat) : Nat := if n ≤ 1 then 0 else nlog2 (n - 1) + 1

/-- Boolean `a ≤ b` on `ℚ` by cross multiplication (denominators are positive). -/
def qle (a b : ℚ) : Bool := a.num * (b.den : Int) ≤ b.num * (a.den : Int)

/-- Boolean `a < b` on `ℚ` by cross multiplication. -/
def qlt (a b : ℚ) : Bool := a.num * (b.den : Int) < b.num * (a.den : Int)

/-- Round `p / q` (with `q > 0`) to the nearest integer, ties to even. -/
def rhe (p : Int) (q : Nat) : Int :=
  let f := p.fdiv (q : Int)
  let r2 := 2 * (p - f * (q : Int))
  if r2 < (q : Int) then f
  else if (q : Int) < r2 then f + 1
  else if f % 2 = 0 then f else f + 1

/-- Decimal digits of a natural number, most significant first (fuelled). -/
def natDigitsAux : Nat → Nat → List Char
  | 0, _ => []
  | f + 1, n => if n = 0 then [] else natDigitsAux f (n / 10) ++ [Nat.digitChar (n % 10)]

/-- Decimal-digit string of a natural number. -/
def natToStr (n : Nat) : String := if n = 0 then "0" else String.mk (natDigitsAux n n)

/-- Pad a string on the left with `'0'` up to the given length. -/
def padLeftZeros (len : Nat) (s : String) : String :=
  String.mk (List.replicate (len - s.data.length) '0' ++ s.data)

/-- Split a character list at every occurrence of `c`, keeping empty pieces —
the semantics of Rust's `str::split(c)`. -/
def splitOnChar (c : Char) : List Char → List (List Char)
  | [] => [[]]
  | x :: xs =>
    if x = c then [] :: splitOnChar c xs
    else
      match splitOnChar c xs with
      | r :: rs => (x :: r) :: rs
      | [] => [[x]]

/-- Rust `str::split(' ')` on a string, as a list of strings. -/
def splitSpaces (s : String) : List String :=
  (splitOnChar ' ' s.data).map String.mk

/-! ### Exact model of IEEE binary64 (`f64`) arithmetic

The source computes `Time::hour_multiplicator` in `f64`
(`self.hours() as f64 + self.minutes() as f64 / 60.0`, src/time.rs) and
converts the result with `Decimal::from_f64` (src/invoice.rs).  An `f64`
value is modelled by the exact rational it denotes; `roundF64` is IEEE
round-to-nearest, ties-to-even, restricted to the normal finite range (all
numbers arising from `u32` hours/minutes are far from the subnormal and
overflow regions, so no gradual underflow or infinity handling is
modelled). -/

/-- The `e` with `2 ^ e ≤ x < 2 ^ (e + 1)`, for positive rational `x`. -/
def floorLog2Q (x : ℚ) : Int :=
  let p := x.num.toNat
  let q := x.den
  if q ≤ p then Int.ofNat (nlog2 (p / q))
  else -(Int.ofNat (clog2n ((q + p - 1) / p)))

/-- Round a positive rational to the nearest binary64 value (normal range):
the nearest multiple of `2 ^ (e - 52)` where `2 ^ e ≤ x < 2 ^ (e + 1)`,
ties to even. -/
def roundF64Pos (x : ℚ) : ℚ :=
  let e := floorLog2Q x
  if 52 ≤ e then
    let k := (e - 52).toNat
    mkRat (rhe x.num (x.den * 2 ^ k) * 2 ^ k) 1
  else
    let k := (52 - e).toNat
    mkRat (rhe (x.num * 2 ^ k) x.den) (2 ^ k)

/-- IEEE binary64 rounding of a rational (sign-symmetric, `0 ↦ 0`). -/
def roundF64 (x : ℚ) : ℚ :=
  if x.num = 0 then 0
  else if 0 < x.num then roundF64Pos x
  else mkRat (-(roundF64Pos (mkRat (-x.num) x.den)).num) (roundF64Pos (mkRat (-x.num) x.den)).den

/-- Exact `a / b` on `ℚ` built with `mkRat` (kernel-reducible; `b = 0 ↦ 0`). -/
def qdivQ (a b : ℚ) : ℚ := mkRat (a.num * (b.den : Int) * b.num.sign) (a.den * b.num.natAbs)

/-- Exact `a + b` on `ℚ` built with `mkRat` (kernel-reducible). -/
def qaddQ (a b : ℚ) : ℚ := mkRat (a.num * (b.den : Int) + b.num * (a.den : Int)) (a.den * b.den)

/-- `f64` division: the correctly rounded quotient, as in
`self.minutes() as f64 / 60.0`. -/
def divF64 (a b : ℚ) : ℚ := roundF64 (qdivQ a b)

/-- `f64` addition: the correctly rounded sum, as in
`self.hours() as f64 + …`. -/
def addF64 (a b : ℚ) : ℚ := roundF64 (qaddQ a b)

/-! ### `rust_decimal::Decimal`

Modelled as a signed mantissa with a decimal scale: the pair `⟨m, s⟩`
denotes `m / 10 ^ s`.  Addition rescales to the larger scale and adds
mantissas; multiplication multiplies mantissas and adds scales — exactly
rust_decimal's behavior while results stay inside its 96-bit mantissa,
which all quantities in this development do. -/

structure Decimal where
  m : Int
  s : Nat
deriving DecidableEq, Repr

namespace Decimal

/-- The rational value of a decimal. -/
def val (d : Decimal) : ℚ := mkRat d.m (10 ^ d.s)

/-- Exact addition (`rust_decimal`: rescale to the larger scale, add mantissas). -/
def add (a b : Decimal) : Decimal :=
  let S := max a.s b.s
  ⟨a.m * 10 ^ (S - a.s) + b.m * 10 ^ (S - b.s), S⟩

/-- Exact multiplication (`rust_decimal`: multiply mantissas, add scales). -/
def mul (a b : Decimal) : Decimal := ⟨a.m * b.m, a.s + b.s⟩

/-- `Decimal::from_u32`: an integer at scale 0. -/
def ofNat (n : Nat) : Decimal := ⟨n, 0⟩

/-- The literal `dec!(0.0)` used as the fold seed in `From<Invoice>`:
mantissa 0 at scale 1. -/
def zero01 : Decimal := ⟨0, 1⟩

/-- `rust_decimal`'s `Display`: sign, integer digits, and — when the scale is
positive — a `'.'` followed by exactly `s` fractional digits. -/
def toString (d : Decimal) : String :=
  let sign := if d.m < 0 then "-" else ""
  let a := d.m.natAbs
  if d.s = 0 then sign ++ natToStr a
  else sign ++ natToStr (a / 10 ^ d.s) ++ "." ++ padLeftZeros d.s (natToStr (a % 10 ^ d.s))

end Decimal

/-- `Decimal::from_f64` on the exact value of a finite `f64`: rust_decimal's
default conversion produces the shortest decimal representation that
round-trips to the same `f64` (excess binary precision is stripped; the
`from_f64_retain` variant, not used by the source, would keep it).  We
search for the least scale whose half-even-rounded mantissa round-trips;
values needing more than 28 fractional digits are outside rust_decimal's
range and do not arise from `u32` hour/minute inputs. -/
def fromF64 (x : ℚ) : Decimal :=
  match (List.range 29).find? fun s =>
      decide (roundF64 (mkRat (rhe (x.num * 10 ^ s) x.den) (10 ^ s)) = x) with
  | some s => ⟨rhe (x.num * 10 ^ s) x.den, s⟩
  | none => ⟨0, 0⟩

/-! ### `Time` and invoice items (src/time.rs, src/invoice.rs) -/

/-- `Time(hours, minutes)`; the source stores two `u32`s. -/
structure Time where
  hours : Nat
  minutes : Nat
deriving DecidableEq, Repr

/-- `Time::hour_multiplicator`: `self.hours() as f64 + self.minutes() as f64 / 60.0`,
computed in `f64`. -/
def Time.hour_multiplicator (t : Time) : ℚ :=
  addF64 (mkRat t.hours 1) (divF64 (mkRat t.minutes 1) (mkRat 60 1))

/-- `InvoiceItemType` (src/invoice.rs). -/
inductive InvoiceItemType where
  | Hours (time : Time)
  | Quantity (quantity : Nat)
  | Other (other : String)
deriving DecidableEq, Repr

/-- `InvoiceItem` (src/invoice.rs). -/
structure InvoiceItem where
  item_type : InvoiceItemType
  description : String
  price_per_unit : Decimal
deriving DecidableEq, Repr

/-- `InvoiceItem::price`: the multiplicator (via `Decimal::from_f64` of the
`f64` hour multiplicator, or `Decimal::from_u32` of the quantity) times
`price_per_unit`; an `Other` item is priced at `price_per_unit` itself. -/
def InvoiceItem.price (i : InvoiceItem) : Decimal :=
  match i.item_type with
  | .Hours time => (fromF64 time.hour_multiplicator).mul i.price_per_unit
  | .Quantity quantity => (Decimal.ofNat quantity).mul i.price_per_unit
  | .Other _ => i.price_per_unit

/-- The grand total computed in `From<Invoice> for PdfDocumentReference`:
`items.iter().fold(dec!(0.0), |acc, item| acc + item.price())`. -/
def price_total (items : List InvoiceItem) : Decimal :=
  items.foldl (fun acc item => acc.add item.price) Decimal.zero01

/-! ### Currencies and the money formatter (src/accounting.rs)

`iso_currency::Currency` is modelled by its observable data: the ISO code
(which the `match` in `create_accounting_from_currency` discriminates on),
the symbol string, and the optional exponent. -/

structure Currency where
  code : String
  symbol : String
  exponent : Option Nat
deriving DecidableEq, Repr

/-- The `iso_currency` data for CZK: symbol `"Kč"`, exponent 2. -/
def CZK : Currency := ⟨"CZK", "Kč", some 2⟩

/-- The `iso_currency` data for EUR: symbol `"€"`, exponent 2. -/
def EUR : Currency := ⟨"EUR", "€", some 2⟩

/-- The `iso_currency` data for USD: symbol `"$"`, exponent 2. -/
def USD : Currency := ⟨"USD", "$", some 2⟩

/-- The configuration of an `accounting::Accounting` formatter: symbol,
precision, the two separators, and the four format templates (placeholders
`{v}` and `{s}`, written here with escaped braces). -/
structure Accounting where
  symbol : String
  precision : Nat
  decimalSeparator : String
  thousandSeparator : String
  fmt : String
  fmtPositive : String
  fmtNegative : String
  fmtZero : String
deriving DecidableEq, Repr

/-- `create_accounting_from_currency` (src/accounting.rs): start from the
currency's symbol and exponent (default 2), install the default templates
`"{v} {s}"` (negative `"-{v} {s}"`) with decimal separator `","` and
thousand separator `" "`, then override for EUR and USD; the explicit CZK
arm of the source `match` is empty, and the wildcard arm changes nothing. -/
def create_accounting_from_currency (c : Currency) : Accounting :=
  let base : Accounting :=
    { symbol := c.symbol
      precision := c.exponent.getD 2
      decimalSeparator := ","
      thousandSeparator := " "
      fmt := "\x7bv\x7d \x7bs\x7d"
      fmtPositive := "\x7bv\x7d \x7bs\x7d"
      fmtNegative := "-\x7bv\x7d \x7bs\x7d"
      fmtZero := "\x7bv\x7d \x7bs\x7d" }
  if c.code = "EUR" then
    { base with
      fmt := "\x7bs\x7d\x7bv\x7d"
      fmtPositive := "\x7bs\x7d\x7bv\x7d"
      fmtZero := "\x7bs\x7d\x7bv\x7d"
      fmtNegative := "-\x7bs\x7d\x7bv\x7d"
      decimalSeparator := ","
      thousandSeparator := "." }
  else if c.code = "USD" then
    { base with
      fmt := "\x7bs\x7d\x7bv\x7d"
      fmtPositive := "\x7bs\x7d\x7bv\x7d"
      fmtZero := "\x7bs\x7d\x7bv\x7d"
      fmtNegative := "-\x7bs\x7d\x7bv\x7d"
      decimalSeparator := "."
      thousandSeparator := "," }
  else base

/-- The opening brace character, written without a brace literal. -/
def lbrace : Char := Char.ofNat 123

/-- The closing brace character, written without a brace literal. -/
def rbrace : Char := Char.ofNat 125

/-- Substitute `{v}` and `{s}` in a template (character-list form). -/
def substChars (v s : List Char) : List Char → List Char
  | [] => []
  | [c] => [c]
  | [c, c2] => [c, c2]
  | c :: c2 :: c3 :: rest =>
    if c = lbrace ∧ c2 = 'v' ∧ c3 = rbrace then v ++ substChars v s rest
    else if c = lbrace ∧ c2 = 's' ∧ c3 = rbrace then s ++ substChars v s rest
    else c :: substChars v s (c2 :: c3 :: rest)

/-- Substitute `{v}` and `{s}` in a format template. -/
def substTemplate (t v s : String) : String := String.mk (substChars v.data s.data t.data)

/-- Chunk a (reversed) digit list into groups of three. -/
def chunk3 : List Char → List (List Char)
  | [] => []
  | [a] => [[a]]
  | [a, b] => [[a, b]]
  | a :: b :: c :: rest => [a, b, c] :: chunk3 rest

/-- Insert the thousand separator into an integer digit string, every three
digits from the right. -/
def groupDigits (tsep : String) (ds : List Char) : List Char :=
  (List.intersperse tsep.data (((chunk3 ds.reverse).map List.reverse).reverse)).flatten

/-- The `{v}` part of a formatted amount: the absolute value of the
half-even-rounded scaled mantissa, with the integer digits grouped by the
thousand separator and — when the precision is positive — the decimal
separator and exactly `precision` fractional digits. -/
def moneyValue (dsep tsep : String) (precision : Nat) (d : Decimal) : String :=
  let a := (rhe (d.m * 10 ^ precision) (10 ^ d.s)).natAbs
  let ipart := String.mk (groupDigits tsep (natToStr (a / 10 ^ precision)).data)
  if precision = 0 then ipart
  else ipart ++ dsep ++ padLeftZeros precision (natToStr (a % 10 ^ precision))

/-- `Accounting::format_money` on a `rust_decimal::Decimal`: round the amount
half-to-even to the configured precision (rust_decimal's default rounding),
render the absolute value with the configured separators, pick the zero /
negative / positive template by the sign of the input, and substitute
`{v}` and `{s}`. -/
def format_money (ac : Accounting) (d : Decimal) : String :=
  let v := moneyValue ac.decimalSeparator ac.thousandSeparator ac.precision d
  let t := if d.m = 0 then ac.fmtZero else if d.m < 0 then ac.fmtNegative else ac.fmtPositive
  substTemplate t v ac.symbol

/-- The `AM` (amount) field of the SPAYD QR payload built in
`From<Invoice> for PdfDocumentReference`: `price_total.to_string()`. -/
def spayd_amount (total : Decimal) : String := total.toString

/-! ### The greedy line wrapper (src/invoice.rs, `pdf_draw_items`)

The measured width of a string (`calculate_text_width`) depends on the
loaded font metrics, an opaque process-lifetime resource; the wrapper is
therefore parametrised by the measuring function `measure : String → ℚ`,
exactly as the spec's `wrap(text, maxWidth, measure)` contract states.
Comparisons mirror the source: commit when `accumulated_length >= threshold`. -/

/-- The wrap loop of `pdf_draw_items`: push the word and a space onto the
accumulator; once the measured accumulator meets or exceeds the threshold,
emit it (including the word just appended) and restart from an empty
accumulator; any nonempty remainder is emitted after the loop. -/
def wrapLoop (measure : String → ℚ) (threshold : ℚ) (acc : String) :
    List String → List String
  | [] => if acc = "" then [] else [acc]
  | w :: ws =>
    let acc2 := acc ++ w ++ " "
    if qle threshold (measure acc2) then acc2 :: wrapLoop measure threshold "" ws
    else wrapLoop measure threshold acc2 ws

/-- The description-rendering logic of `pdf_draw_items`: wrap only when the
measured description exceeds the threshold, else emit it as one line. -/
def wrapDescription (measure : String → ℚ) (threshold : ℚ) (desc : String) :
    List String :=
  if qlt threshold (measure desc) then wrapLoop measure threshold "" (splitSpaces desc)
  else [desc]

/-- The accumulator text built from a chunk of words: each word followed by
the single space the loop pushes after it. -/
def lineOf (c : List String) : String := String.mk ((c.map (fun w => w.data ++ [' '])).flatten)

/-! ### Text measurement (src/pdf.rs) and the longest count label -/

/-- The words of a text as azul's shaper sees them: maximal nonempty runs
between spaces. -/
def wordsOf (text : String) : List String :=
  ((splitOnChar ' ' text.data).filter (fun w => w ≠ [])).map String.mk

/-- `calculate_text_width` (src/pdf.rs): the sum of the scaled word widths
plus `(scaled_words.items.len() - 1)` space advances.  The subtraction is
on `usize`: when the text contains **zero** words it underflows — a panic in
debug builds and a wrap-around to `2^64 - 1` in release builds — which we
record as `none`.  Word widths and the space advance come from the opaque
font metrics and are parameters. -/
def calculate_text_width (wordWidth : String → ℚ) (spaceAdvance : ℚ)
    (text : String) : Option ℚ :=
  match (wordsOf text).length with
  | 0 => none
  | n + 1 => some ((n : ℚ) * spaceAdvance + ((wordsOf text).map wordWidth).sum)

/-- `x.hour_multiplicator().to_string()` / `x.to_string()`: the count label
of an item.  An `f64` prints as its shortest round-tripping decimal
(Rust's `Display`), which coincides with the digits of `fromF64`. -/
def countString : InvoiceItemType → Option String
  | .Hours time => some (fromF64 time.hour_multiplicator).toString
  | .Quantity q => some (natToStr q)
  | .Other _ => none

/-- The `longest_count` pre-pass of `pdf_draw_items`: starting from the empty
string, keep the count label whenever it is strictly longer than the
current one (`Other` items contribute nothing). -/
def longestCount (items : List InvoiceItem) : String :=
  items.foldl
    (fun acc i =>
      match countString i.item_type with
      | some cnt => if acc.data.length < cnt.data.length then cnt else acc
      | none => acc)
    ""

/-! ### Address (src/address.rs) -/

/-- `Address` (src/address.rs). -/
structure Address where
  city : String
  street : String
  postal_code : String
  house_number : Nat
  orientation_number : Option Nat
deriving DecidableEq, Repr

/-- Rust `format!("{:05}", s)` on a string: pad to width 5 with the fill
character `'0'`; strings are left-aligned by default, so short input is
padded on the right. -/
def padWidth5 (s : String) : String :=
  String.mk (s.data ++ List.replicate (5 - s.data.length) '0')

/-- `Address::get_second_line`: format the postal code with `"{:05}"`,
insert a space at index 3, append a space and the city. -/
def Address.get_second_line (a : Address) : String :=
  let padded := (padWidth5 a.postal_code).data
  String.mk (padded.take 3 ++ ' ' :: padded.drop 3 ++ ' ' :: a.city.data)

/-! ### Payment method, entity, invoice (src/payment_method.rs,
src/entity.rs, src/invoice.rs) -/

/-- `PaymentMethod` (src/payment_method.rs). -/
inductive PaymentMethod where
  | Cash
  | Card (reference : String)
  | BankTransfer (varSymbol : String)
deriving DecidableEq, Repr

/-- `Entity` (src/entity.rs); the registration number is modelled by its
display string. -/
structure Entity where
  identifier : String
  name : String
  address : Address
  vat_number : Option String
deriving DecidableEq, Repr

/-- `chrono::NaiveDate`, modelled as the signed day number (ordering agrees
with the calendar ordering). -/
abbrev NaiveDate := Int

/-- `Invoice` (src/invoice.rs). -/
structure Invoice where
  number : Decimal
  contractor : Entity
  client : Entity
  iban : String
  payment_method : PaymentMethod
  items : List InvoiceItem
  date : NaiveDate
  due_date : NaiveDate
  currency : Currency
  note : Option String
deriving DecidableEq, Repr

/-- `Invoice::new` (src/invoice.rs, lines 94–120): stores every argument
unchanged; the body performs no validation of any kind. -/
def Invoice.new (number : Decimal) (contractor client : Entity) (iban : String)
    (payment_method : PaymentMethod) (items : List InvoiceItem)
    (date due_date : NaiveDate) (currency : Currency) (note : Option String) :
    Invoice :=
  { number := number, contractor := contractor, client := client, iban := iban
    payment_method := payment_method, items := items, date := date
    due_date := due_date, currency := currency, note := note }

/-- `ToBankAccountNumber for Iban` (src/invoice.rs): from the IBAN's display
string take characters 5–8 as the bank code; from character 9 onward drop
the spaces, strip leading `'0'`s, and print `account/bank_code`.  (IBAN
display strings are ASCII, so byte indices and character indices agree.) -/
def to_bank_account_number (value : String) : String :=
  let bank_code := (value.data.drop 5).take 4
  let account_number := ((value.data.drop 9).filter (fun c => c ≠ ' ')).dropWhile (fun c => c = '0')
  String.mk account_number ++ "/" ++ String.mk bank_code

/-! ### Bridging lemmas -/

lemma qle_iff (a b : ℚ) : qle a b = true ↔ a ≤ b := by
  simp only [qle, decide_eq_true_eq]
  exact (Rat.le_def).symm

lemma qlt_iff (a b : ℚ) : qlt a b = true ↔ a < b := by
  simp only [qlt, decide_eq_true_eq]
  exact (Rat.lt_def).symm

lemma Decimal.val_add (a b : Decimal) : (a.add b).val = a.val + b.val := by
  obtain ⟨am, as⟩ := a
  obtain ⟨bm, bs⟩ := b
  simp only [Decimal.add, Decimal.val, Rat.mkRat_eq_div]
  have hpow : ∀ n : ℕ, ((10 : ℚ)) ^ n ≠ 0 := fun n => pow_ne_zero n (by norm_num)
  push_cast
  rw [div_add_div _ _ (hpow as) (hpow bs),
    div_eq_div_iff (hpow _) (mul_ne_zero (hpow as) (hpow bs))]
  have e1 : (10 : ℚ) ^ (max as bs - as) * 10 ^ as = 10 ^ (max as bs) := by
    rw [← pow_add]
    congr 1
    omega
  have e2 : (10 : ℚ) ^ (max as bs - bs) * 10 ^ bs = 10 ^ (max as bs) := by
    rw [← pow_add]
    congr 1
    omega
  linear_combination ((am : ℚ) * 10 ^ bs) * e1 + ((bm : ℚ) * 10 ^ as) * e2

lemma Decimal.val_mul (a b : Decimal) : (a.mul b).val = a.val * b.val := by
  obtain ⟨am, as⟩ := a
  obtain ⟨bm, bs⟩ := b
  simp only [Decimal.mul, Decimal.val, Rat.mkRat_eq_div]
  push_cast
  rw [pow_add, div_mul_div_comm]

lemma Decimal.zero01_val : Decimal.zero01.val = 0 := by
  simp [Decimal.zero01, Decimal.val, Rat.mkRat_eq_div]

lemma Decimal.ext_of_val {a b : Decimal} (hv : a.val = b.val) (hs : a.s = b.s) : a = b := by
  obtain ⟨am, as⟩ := a
  obtain ⟨bm, bs⟩ := b
  simp only at hs
  subst hs
  simp only [Decimal.val, Rat.mkRat_eq_div] at hv
  have hpow : ((10 : ℚ)) ^ as ≠ 0 := pow_ne_zero as (by norm_num)
  have : (am : ℚ) = (bm : ℚ) := by
    field_simp at hv
    exact_mod_cast hv
  have : am = bm := by exact_mod_cast this
  rw [this]

lemma Decimal.add_swap (acc a b : Decimal) : (acc.add a).add b = (acc.add b).add a := by
  apply Decimal.ext_of_val
  · rw [Decimal.val_add, Decimal.val_add, Decimal.val_add, Decimal.val_add]
    ring
  · show max (max acc.s a.s) b.s = max (max acc.s b.s) a.s
    omega

lemma foldl_add_price_val (l : List InvoiceItem) :
    ∀ acc : Decimal,
      (l.foldl (fun a i => a.add i.price) acc).val
        = acc.val + (l.map (fun i => i.price.val)).sum := by
  induction l with
  | nil => intro acc; simp
  | cons x xs ih =>
    intro acc
    simp only [List.foldl_cons, List.map_cons, List.sum_cons]
    rw [ih, Decimal.val_add]
    ring

lemma lineOf_nil : lineOf [] = "" := rfl

lemma lineOf_snoc (p : List String) (w : String) :
    lineOf (p ++ [w]) = lineOf p ++ w ++ " " := by
  apply String.ext
  simp [lineOf, String.data_append]

lemma lineOf_ne_empty {p : List String} (h : p ≠ []) : lineOf p ≠ "" := by
  cases p with
  | nil => exact absurd rfl h
  | cons w ws =>
    intro hcon
    have hdata := congrArg String.data hcon
    simp [lineOf] at hdata

lemma wrapLoop_characterization (measure : String → ℚ) (threshold : ℚ) :
    ∀ (ws pre : List String),
      (∀ k, k + 1 ≤ pre.length → measure (lineOf (pre.take (k + 1))) < threshold) →
      ∃ (committed : List (List String)) (rest : List String),
        pre ++ ws = committed.flatten ++ rest
        ∧ wrapLoop measure threshold (lineOf pre) ws
            = committed.map lineOf ++ (if rest = [] then [] else [lineOf rest])
        ∧ (∀ c ∈ committed, c ≠ []
            ∧ threshold ≤ measure (lineOf c)
            ∧ ∀ k, k + 1 < c.length → measure (lineOf (c.take (k + 1))) < threshold)
        ∧ (∀ k, k + 1 ≤ rest.length → measure (lineOf (rest.take (k + 1))) < threshold) := by
  intro ws
  induction ws with
  | nil =>
    intro pre hpre
    by_cases hp : pre = []
    · subst hp
      refine ⟨[], [], by simp, ?_, by simp, by simp⟩
      simp [wrapLoop, lineOf_nil]
    · refine ⟨[], pre, by simp, ?_, by simp, hpre⟩
      simp [wrapLoop, lineOf_ne_empty hp, hp]
  | cons w ws ih =>
    intro pre hpre
    have hacc : lineOf pre ++ w ++ " " = lineOf (pre ++ [w]) := (lineOf_snoc pre w).symm
    by_cases hcommit : qle threshold (measure (lineOf pre ++ w ++ " "))
    · obtain ⟨committed, rest, hjoin, hout, hcomm, hrest⟩ := ih [] (by simp)
      simp only [List.nil_append] at hjoin
      refine ⟨(pre ++ [w]) :: committed, rest, ?_, ?_, ?_, hrest⟩
      · rw [List.flatten_cons, List.append_assoc, ← hjoin]
        simp
      · simp only [wrapLoop, if_pos hcommit, List.map_cons]
        rw [show ("" : String) = lineOf [] from rfl, hout, hacc]
        simp
      · intro c hc
        rcases List.mem_cons.mp hc with rfl | hc
        · refine ⟨by simp, ?_, ?_⟩
          · rw [← hacc]
            exact (qle_iff _ _).mp hcommit
          · intro k hk
            have hk' : k + 1 ≤ pre.length := by
              have h2 := hk
              simp only [List.length_append, List.length_cons, List.length_nil] at h2
              omega
            rw [List.take_append_of_le_length hk']
            exact hpre k hk'
        · exact hcomm c hc
    · have hlt : measure (lineOf (pre ++ [w])) < threshold := by
        rw [← hacc]
        have hn : ¬ (threshold ≤ measure (lineOf pre ++ w ++ " ")) := fun hle =>
          hcommit ((qle_iff _ _).mpr hle)
        exact lt_of_not_le hn
      have hpre' : ∀ k, k + 1 ≤ (pre ++ [w]).length →
          measure (lineOf ((pre ++ [w]).take (k + 1))) < threshold := by
        intro k hk
        rcases Nat.lt_or_ge (k + 1) (pre.length + 1) with hsmall | hbig
        · have hk' : k + 1 ≤ pre.length := by omega
          rw [List.take_append_of_le_length hk']
          exact hpre k hk'
        · have hlen : (pre ++ [w]).length = pre.length + 1 := by simp
          have hke : k + 1 = pre.length + 1 := by
            rw [hlen] at hk
            omega
          rw [hke, ← hlen, List.take_length]
          exact hlt
      obtain ⟨committed, rest, hjoin, hout, hcomm, hrest⟩ := ih (pre ++ [w]) hpre'
      refine ⟨committed, rest, ?_, ?_, hcomm, hrest⟩
      · rw [show pre ++ w :: ws = (pre ++ [w]) ++ ws by simp]
        exact hjoin
      · rw [← hout, ← hacc]
        simp only [wrapLoop, if_neg hcommit]

lemma data_foldl_append (l : List String) :
    ∀ acc : String, (l.foldl (· ++ ·) acc).data = acc.data ++ (l.map String.data).flatten := by
  induction l with
  | nil => intro acc; simp
  | cons x xs ih =>
    intro acc
    simp only [List.foldl_cons, List.map_cons, List.flatten_cons]
    rw [ih, String.data_append]
    simp

lemma data_join (l : List String) : (String.join l).data = (l.map String.data).flatten := by
  rw [show String.join l = l.foldl (· ++ ·) "" from rfl, data_foldl_append]
  rfl

lemma join_cons (a : String) (l : List String) :
    String.join (a :: l) = a ++ String.join l := by
  apply String.ext
  simp [data_join, String.data_append]

lemma join_wrapLoop (measure : String → ℚ) (threshold : ℚ) :
    ∀ (ws : List String) (acc : String),
      String.join (wrapLoop measure threshold acc ws)
        = acc ++ String.join (ws.map (fun w => w ++ " ")) := by
  intro ws
  induction ws with
  | nil =>
    intro acc
    by_cases h : acc = ""
    · subst h
      apply String.ext
      simp [wrapLoop, data_join]
    · simp only [wrapLoop, if_neg h]
      apply String.ext
      simp [data_join, String.data_append]
  | cons w ws ih =>
    intro acc
    simp only [wrapLoop, List.map_cons]
    by_cases h : qle threshold (measure (acc ++ w ++ " "))
    · rw [if_pos h, join_cons, ih "", join_cons]
      apply String.ext
      simp [String.data_append]
    · rw [if_neg h, ih (acc ++ w ++ " "), join_cons]
      apply String.ext
      simp [String.data_append]

lemma splitOnChar_ne_nil (c : Char) (l : List Char) : splitOnChar c l ≠ [] := by
  cases l with
  | nil => simp [splitOnChar]
  | cons x xs =>
    by_cases hx : x = c
    · simp [splitOnChar, hx]
    · simp only [splitOnChar, if_neg hx]
      cases hsp : splitOnChar c xs <;> simp

lemma flatten_split_space (l : List Char) :
    ((splitOnChar ' ' l).map (fun w => w ++ [' '])).flatten = l ++ [' '] := by
  induction l with
  | nil => simp [splitOnChar]
  | cons x xs ih =>
    by_cases hx : x = ' '
    · subst hx
      simp only [splitOnChar, if_pos rfl, List.map_cons, List.flatten_cons]
      simp [ih]
    · cases hsp : splitOnChar ' ' xs with
      | nil => exact absurd hsp (splitOnChar_ne_nil ' ' xs)
      | cons r rs =>
        rw [hsp] at ih
        simp only [splitOnChar, if_neg hx, hsp, List.map_cons, List.flatten_cons] at ih ⊢
        simp only [List.cons_append, List.append_assoc] at ih ⊢
        rw [ih]

lemma foldl_add_price_perm {l l' : List InvoiceItem} (h : l.Perm l') :
    ∀ acc : Decimal,
      l.foldl (fun a i => a.add i.price) acc = l'.foldl (fun a i => a.add i.price) acc := by
  induction h with
  | nil => intro acc; rfl
  | cons x _ ih => intro acc; simp only [List.foldl_cons]; exact ih _
  | swap x y l => intro acc; simp only [List.foldl_cons]; rw [Decimal.add_swap]
  | trans _ _ ih1 ih2 => intro acc; rw [ih1, ih2]

/-! ### Claim theorems -/

set_option maxRecDepth 400000

lemma substTemplate_default_pos (v s : String) :
    substTemplate "\x7bv\x7d \x7bs\x7d" v s = v ++ " " ++ s := by
  apply String.ext
  show v.data ++ ' ' :: (s.data ++ []) = _
  simp [String.data_append]

lemma substTemplate_default_neg (v s : String) :
    substTemplate "-\x7bv\x7d \x7bs\x7d" v s = "-" ++ v ++ " " ++ s := by
  apply String.ext
  show '-' :: (v.data ++ ' ' :: (s.data ++ [])) = _
  simp [String.data_append]

lemma substTemplate_prefix_pos (v s : String) :
    substTemplate "\x7bs\x7d\x7bv\x7d" v s = s ++ v := by
  apply String.ext
  show s.data ++ (v.data ++ []) = _
  simp [String.data_append]

lemma substTemplate_prefix_neg (v s : String) :
    substTemplate "-\x7bs\x7d\x7bv\x7d" v s = "-" ++ s ++ v := by
  apply String.ext
  show '-' :: (s.data ++ (v.data ++ [])) = _
  simp [String.data_append]

lemma fdiv_fmod_unique {q f' r' f r : Int} (hq : 0 < q) (heq : q * f' + r' = q * f + r)
    (hr'0 : 0 ≤ r') (hr'q : r' < q) (hr0 : 0 ≤ r) (hrq : r < q) : f' = f ∧ r' = r := by
  have h : q * (f' - f) = r - r' := by ring_nf; nlinarith [heq]
  have hf : f' - f = 0 := by
    rcases lt_trichotomy (f' - f) 0 with hlt | heq0 | hgt
    · have h1 : f' - f ≤ -1 := by omega
      have h2 : q * (f' - f) ≤ q * (-1) := mul_le_mul_of_nonneg_left h1 (le_of_lt hq)
      omega
    · exact heq0
    · have h1 : 1 ≤ f' - f := by omega
      have h2 : q * 1 ≤ q * (f' - f) := mul_le_mul_of_nonneg_left h1 (le_of_lt hq)
      omega
  refine ⟨by omega, ?_⟩
  rw [hf] at h
  omega

lemma rhe_neg (p : Int) (q : Nat) (hq : 0 < (q : Int)) : rhe (-p) q = -(rhe p q) := by
  have hid : (q : Int) * (p.fdiv q) + p.fmod q = p := Int.fdiv_add_fmod p q
  have hr0 : 0 ≤ p.fmod q := Int.fmod_nonneg' p hq
  have hrq : p.fmod q < q := Int.fmod_lt_of_pos p hq
  have hid' : (q : Int) * ((-p).fdiv q) + (-p).fmod q = -p := Int.fdiv_add_fmod (-p) q
  have hr0' : 0 ≤ (-p).fmod q := Int.fmod_nonneg' _ hq
  have hrq' : (-p).fmod q < q := Int.fmod_lt_of_pos _ hq
  set f := p.fdiv (q : Int) with hfdef
  set r := p.fmod (q : Int) with hrdef
  by_cases hr : r = 0
  · have huniq : (-p).fdiv q = -f ∧ (-p).fmod q = 0 := by
      apply fdiv_fmod_unique hq _ hr0' hrq' le_rfl hq
      rw [hid', ← hid, hr]
      ring
    simp only [rhe]
    rw [huniq.1]
    have e1 : -p - -f * (q : Int) = 0 := by rw [← hid, hr]; ring
    have e2 : p - f * (q : Int) = 0 := by rw [← hid, hr]; ring
    rw [e1, e2]
    simp only [mul_zero]
    rw [if_pos hq, if_pos hq]
  · have huniq : (-p).fdiv q = -f - 1 ∧ (-p).fmod q = q - r := by
      apply fdiv_fmod_unique hq _ hr0' hrq' (by omega) (by omega)
      rw [hid', ← hid]
      ring
    simp only [rhe]
    rw [huniq.1]
    have e1 : -p - (-f - 1) * (q : Int) = q - r := by rw [← hid]; ring
    have e2 : p - f * (q : Int) = r := by rw [← hid]; ring
    rw [e1, e2]
    split_ifs <;> omega

lemma moneyValue_neg (ds ts : String) (p : Nat) (m : Int) (s : Nat) :
    moneyValue ds ts p ⟨-m, s⟩ = moneyValue ds ts p ⟨m, s⟩ := by
  simp only [moneyValue]
  rw [show (-m) * 10 ^ p = -(m * 10 ^ p) by ring,
    rhe_neg _ _ (by positivity), Int.natAbs_neg]

lemma format_money_default (sym : String) (p : Nat) (ds ts : String) (d : Decimal) :
    format_money
        ⟨sym, p, ds, ts, "\x7bv\x7d \x7bs\x7d", "\x7bv\x7d \x7bs\x7d",
          "-\x7bv\x7d \x7bs\x7d", "\x7bv\x7d \x7bs\x7d"⟩ d
      = (if d.m < 0 then "-" else "") ++ moneyValue ds ts p d ++ " " ++ sym := by
  rcases lt_trichotomy d.m 0 with hm | hm | hm
  · show substTemplate (if d.m = 0 then _ else if d.m < 0 then _ else _) _ _ = _
    rw [if_neg (by omega), if_pos hm, substTemplate_default_neg, if_pos hm]
  · show substTemplate (if d.m = 0 then _ else if d.m < 0 then _ else _) _ _ = _
    rw [if_pos hm, substTemplate_default_pos, if_neg (by omega)]
    rfl
  · show substTemplate (if d.m = 0 then _ else if d.m < 0 then _ else _) _ _ = _
    rw [if_neg (by omega), if_neg (by omega), substTemplate_default_pos, if_neg (by omega)]
    rfl

lemma format_money_prefix (sym : String) (p : Nat) (ds ts : String) (d : Decimal) :
    format_money
        ⟨sym, p, ds, ts, "\x7bs\x7d\x7bv\x7d", "\x7bs\x7d\x7bv\x7d",
          "-\x7bs\x7d\x7bv\x7d", "\x7bs\x7d\x7bv\x7d"⟩ d
      = (if d.m < 0 then "-" else "") ++ sym ++ moneyValue ds ts p d := by
  rcases lt_trichotomy d.m 0 with hm | hm | hm
  · show substTemplate (if d.m = 0 then _ else if d.m < 0 then _ else _) _ _ = _
    rw [if_neg (by omega), if_pos hm, substTemplate_prefix_neg, if_pos hm]
  · show substTemplate (if d.m = 0 then _ else if d.m < 0 then _ else _) _ _ = _
    rw [if_pos hm, substTemplate_prefix_pos, if_neg (by omega)]
    rfl
  · show substTemplate (if d.m = 0 then _ else if d.m < 0 then _ else _) _ _ = _
    rw [if_neg (by omega), if_neg (by omega), substTemplate_prefix_pos, if_neg (by omega)]
    rfl

lemma create_accounting_default {c : Currency} (h1 : ¬ c.code = "EUR")
    (h2 : ¬ c.code = "USD") :
    create_accounting_from_currency c
      = ⟨c.symbol, c.exponent.getD 2, ",", " ", "\x7bv\x7d \x7bs\x7d", "\x7bv\x7d \x7bs\x7d",
          "-\x7bv\x7d \x7bs\x7d", "\x7bv\x7d \x7bs\x7d"⟩ := by
  simp only [create_accounting_from_currency, if_neg h1, if_neg h2]

lemma create_accounting_eur {c : Currency} (h : c.code = "EUR") :
    create_accounting_from_currency c
      = ⟨c.symbol, c.exponent.getD 2, ",", ".", "\x7bs\x7d\x7bv\x7d", "\x7bs\x7d\x7bv\x7d",
          "-\x7bs\x7d\x7bv\x7d", "\x7bs\x7d\x7bv\x7d"⟩ := by
  simp only [create_accounting_from_currency, if_pos h]

lemma create_accounting_usd {c : Currency} (h1 : c.code = "USD") :
    create_accounting_from_currency c
      = ⟨c.symbol, c.exponent.getD 2, ".", ",", "\x7bs\x7d\x7bv\x7d", "\x7bs\x7d\x7bv\x7d",
          "-\x7bs\x7d\x7bv\x7d", "\x7bs\x7d\x7bv\x7d"⟩ := by
  by_cases h2 : c.code = "EUR"
  · rw [h1] at h2
    exact absurd h2 (by decide)
  · simp only [create_accounting_from_currency, if_neg h2, if_pos h1]

/-- C1: the grand total drawn by the items stage is the fold of
`InvoiceItem::price` over the item list starting from `dec!(0.0)`: its value
is the exact decimal sum of all item prices, it is invariant under
permutations of the item list, and it is zero for an empty item list. -/
theorem C1_grand_total (items items' : List InvoiceItem) (hperm : items.Perm items') :
    (price_total items).val = (items.map (fun i => i.price.val)).sum
    ∧ price_total items = price_total items'
    ∧ (price_total []).val = 0 := by
  refine ⟨?_, ?_, ?_⟩
  · rw [price_total, foldl_add_price_val, Decimal.zero01_val, zero_add]
  · exact foldl_add_price_perm hperm _
  · rw [price_total, List.foldl_nil, Decimal.zero01_val]

/-- Witness for C1 at a concrete two-item list and its transposition. -/
theorem C1_grand_total_witness :
    ([⟨.Quantity 2, "a", ⟨10, 0⟩⟩, ⟨.Other "ks", "b", ⟨5, 0⟩⟩] : List InvoiceItem).Perm
      [⟨.Other "ks", "b", ⟨5, 0⟩⟩, ⟨.Quantity 2, "a", ⟨10, 0⟩⟩]
    ∧ ((price_total [⟨.Quantity 2, "a", ⟨10, 0⟩⟩, ⟨.Other "ks", "b", ⟨5, 0⟩⟩]).val
        = ([⟨.Quantity 2, "a", ⟨10, 0⟩⟩, (⟨.Other "ks", "b", ⟨5, 0⟩⟩ : InvoiceItem)].map
            (fun i => i.price.val)).sum
      ∧ price_total [⟨.Quantity 2, "a", ⟨10, 0⟩⟩, ⟨.Other "ks", "b", ⟨5, 0⟩⟩]
          = price_total [⟨.Other "ks", "b", ⟨5, 0⟩⟩, ⟨.Quantity 2, "a", ⟨10, 0⟩⟩]
      ∧ (price_total []).val = 0) :=
  ⟨List.Perm.swap _ _ _, C1_grand_total _ _ (List.Perm.swap _ _ _)⟩

/-- C2: the money formatter built for a currency renders any amount as
follows: by default (every currency other than EUR and USD, including CZK,
whose `match` arm is empty) the rounded value — comma decimal separator,
space thousand separator, the currency's exponent defaulting to 2 —
followed by a space and the currency's symbol; EUR and USD prefix the
symbol with no separating space and swap the separator roles (USD:
decimal `"."`, thousand `","`; EUR: decimal `","`, thousand `"."`); and
every negative amount formats as the positive form prefixed with a minus. -/
theorem C2_money_formatter (c : Currency) (d : Decimal) :
    (¬ c.code = "EUR" → ¬ c.code = "USD" →
      format_money (create_accounting_from_currency c) d
        = (if d.m < 0 then "-" else "")
          ++ moneyValue "," " " (c.exponent.getD 2) d ++ " " ++ c.symbol)
    ∧ (c.code = "EUR" →
      format_money (create_accounting_from_currency c) d
        = (if d.m < 0 then "-" else "")
          ++ c.symbol ++ moneyValue "," "." (c.exponent.getD 2) d)
    ∧ (c.code = "USD" →
      format_money (create_accounting_from_currency c) d
        = (if d.m < 0 then "-" else "")
          ++ c.symbol ++ moneyValue "." "," (c.exponent.getD 2) d)
    ∧ (d.m < 0 →
      format_money (create_accounting_from_currency c) d
        = "-" ++ format_money (create_accounting_from_currency c) ⟨-d.m, d.s⟩) := by
  refine ⟨?_, ?_, ?_, ?_⟩
  · intro h1 h2
    rw [create_accounting_default h1 h2, format_money_default]
  · intro h
    rw [create_accounting_eur h, format_money_prefix]
  · intro h
    rw [create_accounting_usd h, format_money_prefix]
  · intro hm
    obtain ⟨m, s⟩ := d
    simp only at hm
    by_cases h1 : c.code = "EUR"
    · rw [create_accounting_eur h1, format_money_prefix, format_money_prefix,
        moneyValue_neg, if_pos hm, if_neg (by omega : ¬ -m < 0)]
      rfl
    · by_cases h2 : c.code = "USD"
      · rw [create_accounting_usd h2, format_money_prefix, format_money_prefix,
          moneyValue_neg, if_pos hm, if_neg (by omega : ¬ -m < 0)]
        rfl
      · rw [create_accounting_default h1 h2, format_money_default, format_money_default,
          moneyValue_neg, if_pos hm, if_neg (by omega : ¬ -m < 0)]
        apply String.ext
        simp [String.data_append]

/-- Witness for C2 at CZK (a default-rule currency) and a negative amount. -/
theorem C2_money_formatter_witness :
    (¬ CZK.code = "EUR" ∧ ¬ CZK.code = "USD"
      ∧ format_money (create_accounting_from_currency CZK) ⟨-12345678, 2⟩
          = (if (-12345678 : Int) < 0 then "-" else "")
            ++ moneyValue "," " " (CZK.exponent.getD 2) ⟨-12345678, 2⟩ ++ " " ++ CZK.symbol)
    ∧ ((-12345678 : Int) < 0
      ∧ format_money (create_accounting_from_currency CZK) ⟨-12345678, 2⟩
          = "-" ++ format_money (create_accounting_from_currency CZK) ⟨-(-12345678), 2⟩) :=
  ⟨⟨by decide, by decide,
      (C2_money_formatter CZK ⟨-12345678, 2⟩).1 (by decide) (by decide)⟩,
    ⟨by decide, (C2_money_formatter CZK ⟨-12345678, 2⟩).2.2.2 (by decide)⟩⟩

/-- C3 counterexample: for `Hours(0, 20)` at price-per-unit 3 the claimed
price `(0 + 20/60) × 3 = 1` is **not** what the code computes: the `f64`
multiplicator `20.0 / 60.0` is not exactly `1/3`, and `Decimal::from_f64`
yields `0.3333333333333333`, so the price is `0.9999999999999999`. -/
theorem C3_price_counterexample :
    (InvoiceItem.price ⟨.Hours ⟨0, 20⟩, "", ⟨3, 0⟩⟩).val
      ≠ ((0 : ℚ) + 20 / 60) * Decimal.val ⟨3, 0⟩ := by
  have h : ((0 : ℚ) + 20 / 60) * Decimal.val ⟨3, 0⟩ = 1 := by
    simp only [Decimal.val, Rat.mkRat_eq_div]
    norm_num
  rw [h]
  decide

/-- C3 amended: `price()` is multiplicator × price-per-unit, where the
multiplicator for `Hours` is the `f64` evaluation of hours + minutes/60
converted by `Decimal::from_f64` (exactly `3/2` for `Hours(1,30)`, though
not exact for all minute values), the integer count for `Quantity`, and 1
for `Other`; in particular `Hours(1,30)` at 100 yields 150, `Quantity(3)`
at 50 yields 150, and `Other` at 75 yields 75, regardless of description. -/
theorem C3_price_amended (q : Nat) (pp : Decimal) (d o : String) :
    ((InvoiceItem.price ⟨.Hours ⟨1, 30⟩, d, pp⟩).val = (3 / 2 : ℚ) * pp.val)
    ∧ ((InvoiceItem.price ⟨.Quantity q, d, pp⟩).val = (q : ℚ) * pp.val)
    ∧ (InvoiceItem.price ⟨.Other o, d, pp⟩ = pp)
    ∧ ((InvoiceItem.price ⟨.Hours ⟨1, 30⟩, d, ⟨100, 0⟩⟩).val = 150)
    ∧ ((InvoiceItem.price ⟨.Quantity 3, d, ⟨50, 0⟩⟩).val = 150)
    ∧ ((InvoiceItem.price ⟨.Other o, d, ⟨75, 0⟩⟩).val = 75) := by
  have h1 : ∀ pp : Decimal,
      (InvoiceItem.price ⟨.Hours ⟨1, 30⟩, d, pp⟩).val = (3 / 2 : ℚ) * pp.val := by
    intro pp
    show ((fromF64 (Time.hour_multiplicator ⟨1, 30⟩)).mul pp).val = _
    rw [show fromF64 (Time.hour_multiplicator ⟨1, 30⟩) = (⟨15, 1⟩ : Decimal) from by decide]
    rw [Decimal.val_mul]
    norm_num [Decimal.val, Rat.mkRat_eq_div]
  have h2 : ∀ (q : Nat) (pp : Decimal),
      (InvoiceItem.price ⟨.Quantity q, d, pp⟩).val = (q : ℚ) * pp.val := by
    intro q pp
    show ((Decimal.ofNat q).mul pp).val = _
    rw [Decimal.val_mul]
    congr 1
    simp [Decimal.ofNat, Decimal.val, Rat.mkRat_eq_div]
  refine ⟨h1 pp, h2 q pp, rfl, ?_, ?_, ?_⟩
  · rw [h1 ⟨100, 0⟩]
    norm_num [Decimal.val, Rat.mkRat_eq_div]
  · rw [h2 3 ⟨50, 0⟩]
    norm_num [Decimal.val, Rat.mkRat_eq_div]
  · show Decimal.val ⟨75, 0⟩ = 75
    norm_num [Decimal.val, Rat.mkRat_eq_div]

/-- C6: for the program's one-item invoice — `Hours(1,30)` at the decimal
price-per-unit `dec!(350.0)` (mantissa 3500, scale 1, as constructed in
main.rs) in CZK, paid by bank transfer — the rendered grand total under the
default formatting rule is `"525,00 Kč"`, and the `AM` field of the SPAYD
QR payload, `price_total.to_string()`, is `"525.00"` (the fold
`0.0 + 1.5 × 350.0` carries scale 2). -/
theorem C6_end_to_end :
    format_money (create_accounting_from_currency CZK)
        (price_total [⟨.Hours ⟨1, 30⟩, "Programování SmartEmalingu", ⟨3500, 1⟩⟩])
      = "525,00 Kč"
    ∧ spayd_amount
        (price_total [⟨.Hours ⟨1, 30⟩, "Programování SmartEmalingu", ⟨3500, 1⟩⟩])
      = "525.00" := by
  constructor
  · decide
  · decide

/-- C5: the text-width measurement of `calculate_text_width` is **not**
well-defined on zero words: with an empty item list the `longest_count`
label is the empty string, and measuring it (or an empty description)
computes `(items.len() - 1)` on `usize` with zero scaled words, which
underflows — a panic in debug builds and a wrap-around in release builds —
contradicting the spec's requirement that degenerate input not panic. -/
theorem C5_zero_words_underflow :
    longestCount [] = ""
    ∧ ∀ (wordWidth : String → ℚ) (spaceAdvance : ℚ),
        calculate_text_width wordWidth spaceAdvance "" = none :=
  ⟨rfl, fun _ _ => rfl⟩

/-- C7 counterexample: `Invoice::new` performs no validation, so it happily
constructs an invoice whose due date (day 4) is strictly earlier than its
issue date (day 5), falsifying "every Invoice value produced by the
constructor satisfies due_date ≥ date". -/
theorem C7_counterexample :
    ¬ ((Invoice.new ⟨1, 0⟩ ⟨"1", "C", ⟨"P", "S", "12000", 1, none⟩, none⟩
          ⟨"2", "D", ⟨"P", "S", "12000", 2, none⟩, none⟩ "CZ650800"
          (.BankTransfer "202403") [] 5 4 CZK none).due_date
        ≥ (Invoice.new ⟨1, 0⟩ ⟨"1", "C", ⟨"P", "S", "12000", 1, none⟩, none⟩
          ⟨"2", "D", ⟨"P", "S", "12000", 2, none⟩, none⟩ "CZ650800"
          (.BankTransfer "202403") [] 5 4 CZK none).date) := by
  decide

/-- C7 amended: the constructor stores the issue and due dates unchanged and
enforces nothing, so the constructed invoice satisfies `due_date ≥ date`
exactly when the caller's arguments already do. -/
theorem C7_constructor_stores_dates (number : Decimal) (contractor client : Entity)
    (iban : String) (pm : PaymentMethod) (items : List InvoiceItem)
    (date due_date : NaiveDate) (currency : Currency) (note : Option String) :
    (Invoice.new number contractor client iban pm items date due_date currency note).date
        = date
    ∧ (Invoice.new number contractor client iban pm items date due_date currency note).due_date
        = due_date
    ∧ ((Invoice.new number contractor client iban pm items date due_date currency note).due_date
        ≥ (Invoice.new number contractor client iban pm items date due_date currency note).date
      ↔ due_date ≥ date) :=
  ⟨rfl, rfl, Iff.rfl⟩

/-- C8: when the postal code is five characters, the second address line is
the first three characters, an inserted space, the remaining two characters,
a space, and the city. -/
theorem C8_second_line (a : Address) (h5 : a.postal_code.data.length = 5) :
    a.get_second_line
      = String.mk (a.postal_code.data.take 3) ++ " "
        ++ String.mk (a.postal_code.data.drop 3) ++ " " ++ a.city := by
  apply String.ext
  simp only [Address.get_second_line, padWidth5, String.data_append, h5]
  simp [h5]

/-- Witness for C8 at the spec's concrete example: postal code `"12000"`,
city `"Praha"`. -/
theorem C8_second_line_witness :
    ("12000" : String).data.length = 5
    ∧ Address.get_second_line ⟨"Praha", "Husova", "12000", 123, none⟩ = "120 00 Praha" :=
  ⟨by decide,
    (C8_second_line ⟨"Praha", "Husova", "12000", 123, none⟩ (by decide)).trans (by decide)⟩

/-- C4: on any description wider than the threshold, the wrap is exactly the
greedy flush-on-overflow algorithm: the words split from the description
partition into committed chunks followed by a remainder; each emitted line
is a whole chunk of consecutive words joined by the single pushed spaces
(so no word is ever split mid-word); every committed chunk measures at or
above the threshold **including** its final (triggering) word while each of
its proper prefixes measured strictly below; and the remainder — whose
prefixes all measured below the threshold — is emitted as one final line
when nonempty. -/
theorem C4_greedy_wrap (measure : String → ℚ) (threshold : ℚ) (desc : String)
    (hwide : threshold < measure desc) :
    ∃ (committed : List (List String)) (rest : List String),
      splitSpaces desc = committed.flatten ++ rest
      ∧ wrapDescription measure threshold desc
          = committed.map lineOf ++ (if rest = [] then [] else [lineOf rest])
      ∧ (∀ c ∈ committed, c ≠ []
          ∧ threshold ≤ measure (lineOf c)
          ∧ ∀ k, k + 1 < c.length → measure (lineOf (c.take (k + 1))) < threshold)
      ∧ (∀ k, k + 1 ≤ rest.length → measure (lineOf (rest.take (k + 1))) < threshold) := by
  obtain ⟨committed, rest, h1, h2, h3, h4⟩ :=
    wrapLoop_characterization measure threshold (splitSpaces desc) [] (by simp)
  refine ⟨committed, rest, by simpa using h1, ?_, h3, h4⟩
  rw [wrapDescription, if_pos ((qlt_iff _ _).mpr hwide)]
  rw [show ("" : String) = lineOf [] from rfl]
  exact h2

/-- Witness for C4 with a length measure, threshold 3, and `"ab cd"`. -/
theorem C4_greedy_wrap_witness :
    ((mkRat 3 1 : ℚ) < (fun s : String => mkRat s.data.length 1) "ab cd")
    ∧ ∃ (committed : List (List String)) (rest : List String),
        splitSpaces "ab cd" = committed.flatten ++ rest
        ∧ wrapDescription (fun s : String => mkRat s.data.length 1) (mkRat 3 1) "ab cd"
            = committed.map lineOf ++ (if rest = [] then [] else [lineOf rest])
        ∧ (∀ c ∈ committed, c ≠ []
            ∧ (mkRat 3 1 : ℚ) ≤ (fun s : String => mkRat s.data.length 1) (lineOf c)
            ∧ ∀ k, k + 1 < c.length →
                (fun s : String => mkRat s.data.length 1) (lineOf (c.take (k + 1)))
                  < (mkRat 3 1 : ℚ))
        ∧ (∀ k, k + 1 ≤ rest.length →
            (fun s : String => mkRat s.data.length 1) (lineOf (rest.take (k + 1)))
              < (mkRat 3 1 : ℚ)) :=
  ⟨by decide, C4_greedy_wrap _ _ _ (by decide)⟩

/-- C9: concatenating all emitted lines reproduces the description exactly,
up to the single trailing space the loop pushes after the final word (each
line already carries the single spaces separating its words, so rejoining
the words of the lines gives back the original text): on the wrap path the
concatenation is the description followed by one space, and an unwrapped
description is returned verbatim. -/
theorem C9_wrap_reconstruction (measure : String → ℚ) (threshold : ℚ) (desc : String) :
    String.join (wrapDescription measure threshold desc)
      = if threshold < measure desc then desc ++ " " else desc := by
  by_cases h : threshold < measure desc
  · rw [if_pos h, wrapDescription, if_pos ((qlt_iff _ _).mpr h), join_wrapLoop]
    apply String.ext
    rw [String.data_append, data_join]
    simp only [splitSpaces, List.map_map]
    rw [show (String.data ∘ (fun w => w ++ " ") ∘ String.mk)
        = fun l : List Char => l ++ [' '] from funext fun l => by
          simp [Function.comp, String.data_append]]
    simp [flatten_split_space, String.data_append]
  · have hq : ¬ (qlt threshold (measure desc) = true) := fun hh => h ((qlt_iff _ _).mp hh)
    rw [if_neg h, wrapDescription, if_neg hq]
    apply String.ext
    simp [data_join]

/-- C10: the printed bank-account string is the IBAN display string from
index 9 on, spaces removed and leading zeros stripped, then `'/'`, then
characters 5–8; an account part consisting only of zeros (and spaces)
therefore renders as the empty string before the slash. -/
theorem C10_bank_account (s : String) (_hlen : 9 ≤ s.data.length) :
    to_bank_account_number s
        = String.mk (((s.data.drop 9).filter (fun c => c ≠ ' ')).dropWhile (fun c => c = '0'))
          ++ "/" ++ String.mk ((s.data.drop 5).take 4)
    ∧ ((∀ c ∈ s.data.drop 9, c = '0' ∨ c = ' ') →
        to_bank_account_number s = "/" ++ String.mk ((s.data.drop 5).take 4)) := by
  refine ⟨rfl, fun hz => ?_⟩
  have hdrop : ((s.data.drop 9).filter (fun c => c ≠ ' ')).dropWhile (fun c => c = '0') = [] := by
    rw [List.dropWhile_eq_nil_iff]
    intro x hx
    have hx' := List.mem_of_mem_filter hx
    have hne := List.of_mem_filter hx
    rcases hz x hx' with h0 | hsp
    · simp [h0]
    · simp [hsp] at hne
  show String.mk _ ++ "/" ++ String.mk _ = _
  rw [hdrop]
  apply String.ext
  simp [String.data_append]

/-- Witness for C10: a concrete Czech IBAN display string, and one whose
account part is all zeros. -/
theorem C10_bank_account_witness :
    (9 ≤ ("CZ65 0800 0000 1920 0014 5399" : String).data.length
      ∧ to_bank_account_number "CZ65 0800 0000 1920 0014 5399"
          = String.mk (((("CZ65 0800 0000 1920 0014 5399" : String).data.drop 9).filter
              (fun c => c ≠ ' ')).dropWhile (fun c => c = '0'))
            ++ "/" ++ String.mk ((("CZ65 0800 0000 1920 0014 5399" : String).data.drop 5).take 4))
    ∧ to_bank_account_number "CZ65 0800 0000 0000 0000 0000" = "/0800" :=
  ⟨⟨by decide, (C10_bank_account "CZ65 0800 0000 1920 0014 5399" (by decide)).1⟩,
    ((C10_bank_account "CZ65 0800 0000 0000 0000 0000" (by decide)).2 (by decide)).trans
      (by decide)⟩

end Invoicer
